import Mathlib

/-!
Verification of the RaceGym simulation core (track curve geometry, rigid-body
physics, vehicle wheel model, observation export) against its natural-language
specification.  The C++ sources (`track.cpp`, `physics.cpp`, `vehicle.cpp`,
`sim.cpp`) are embedded shallowly: `glm` float vectors become pairs/triples of
rationals with exact arithmetic, quaternions become a four-component structure,
and the numeric epsilons of the source (`1e-4`, `1e-6`, `FLT_MAX`) become the
corresponding exact rational constants.  Transcendental operations of the
source (`sin`, `cos`, `atan`, and the square-root hidden in `normalize`) are
kept abstract as function parameters, since every property proved here is
independent of their values.
-/

/-! ## Vectors (glm::vec2 / glm::vec3 over exact rationals) -/

/-- A 2-component vector, as used for track control points. -/
abbrev Vec2 : Type := ℚ × ℚ

/-- A 3-component vector, as used for world-space positions and forces. -/
abbrev Vec3 : Type := ℚ × ℚ × ℚ

/-- Scalar multiplication of a 2D vector (componentwise, as in glm). -/
def smul2 (c : ℚ) (v : Vec2) : Vec2 := (c * v.1, c * v.2)

/-- Scalar multiplication of a 3D vector (componentwise, as in glm). -/
def smul3 (c : ℚ) (v : Vec3) : Vec3 := (c * v.1, c * v.2.1, c * v.2.2)

/-- Dot product of 2D vectors (`glm::dot`). -/
def dot2 (a b : Vec2) : ℚ := a.1 * b.1 + a.2 * b.2

/-- Squared distance between 2D points; `glm::distance(a,b) ≤ r` for `r ≥ 0`
is equivalent to `sqDist2 a b ≤ r^2`, which lets the embedding avoid the
square root inside `glm::distance`. -/
def sqDist2 (a b : Vec2) : ℚ := dot2 (a - b) (a - b)

/-- Squared length of a 3D vector; stands for `glm::length` compared against
a nonnegative bound, squared. -/
def sqLen3 (v : Vec3) : ℚ := v.1 * v.1 + v.2.1 * v.2.1 + v.2.2 * v.2.2

/-- Dot product of 3D vectors (`glm::dot`). -/
def dot3 (a b : Vec3) : ℚ := a.1 * b.1 + a.2.1 * b.2.1 + a.2.2 * b.2.2

/-- Cross product of 3D vectors (`glm::cross`). -/
def cross3 (a b : Vec3) : Vec3 :=
  (a.2.1 * b.2.2 - a.2.2 * b.2.1,
   a.2.2 * b.1 - a.1 * b.2.2,
   a.1 * b.2.1 - a.2.1 * b.1)

/-! ## Quaternions (glm::quat) -/

/-- A quaternion with rational components, mirroring `glm::quat` (w, x, y, z). -/
structure Quat where
  w : ℚ
  x : ℚ
  y : ℚ
  z : ℚ
deriving DecidableEq, Repr

/-- The vector part of a quaternion. -/
def Quat.vec (q : Quat) : Vec3 := (q.x, q.y, q.z)

/-- Rotation of a vector by a quaternion, exactly glm's
`operator*(quat, vec3)`: with `u` the vector part,
`v + 2 (w (u × v) + u × (u × v))`. -/
def quatRotate (q : Quat) (v : Vec3) : Vec3 :=
  let uv := cross3 q.vec v
  let uuv := cross3 q.vec uv
  v + smul3 2 (smul3 q.w uv + uuv)

/-- Hamilton product of quaternions (`glm::operator*(quat, quat)`). -/
def quatMul (a b : Quat) : Quat :=
  { w := a.w * b.w - a.x * b.x - a.y * b.y - a.z * b.z
    x := a.w * b.x + a.x * b.w + a.y * b.z - a.z * b.y
    y := a.w * b.y + a.y * b.w + a.z * b.x - a.x * b.z
    z := a.w * b.z + a.z * b.w + a.x * b.y - a.y * b.x }

/-! ## Track curve (`track.cpp`)

A loaded curve is its ordered list of 2D control points; consecutive pairs
plus the wrapped next point define quadratic Bezier segments, and
`numSegments = points.size() / 2` as in `Track::loadPointsFromFile`. -/

/-- `numSegments = points.size() / 2` (integer division, `track.cpp:195`). -/
def numSegmentsOf (pts : List Vec2) : ℕ := pts.length / 2

/-- `Track::getPosition` (`track.cpp:36-45`): segment index is
`static_cast<int>(t) % numSegments`, the local parameter is `t - floor(t)`,
and the value is the quadratic Bezier of the segment's control points, the
third wrapping around the point list.  For `t ≥ 0` the C++ int cast agrees
with `floor` and the C++ `%` agrees with `Int.emod`; negative `t` would index
out of bounds in the source, so `t ≥ 0` is the meaningful domain. -/
def getPosition (pts : List Vec2) (t : ℚ) : Vec2 :=
  let n : ℤ := (numSegmentsOf pts : ℤ)
  let segment : ℕ := (⌊t⌋ % n).toNat
  let p0 := pts.getD (segment * 2) (0, 0)
  let p1 := pts.getD (segment * 2 + 1) (0, 0)
  let p2 := pts.getD ((segment * 2 + 2) % pts.length) (0, 0)
  let localT := t - (⌊t⌋ : ℚ)
  let invT := 1 - localT
  smul2 (invT * invT) p0 + smul2 (2 * invT * localT) p1 + smul2 (localT * localT) p2

/-! ## Closest-point query (`Track::getClosestT`, `track.cpp:242-349`) -/

/-- The exact value of `FLT_MAX`, the initial "minimum distance" of both
search loops in `Track::getClosestT`. -/
def floatMax : ℚ := (2 ^ 24 - 1) * 2 ^ 104

/-- First control point of a segment (`points[seg * 2]`). -/
def segP0 (pts : List Vec2) (seg : ℕ) : Vec2 := pts.getD (seg * 2) (0, 0)

/-- Second control point of a segment (`points[seg * 2 + 1]`). -/
def segP1 (pts : List Vec2) (seg : ℕ) : Vec2 := pts.getD (seg * 2 + 1) (0, 0)

/-- Third control point of a segment, wrapping around the point list
(`points[(seg * 2 + 2) % points.size()]`). -/
def segP2 (pts : List Vec2) (seg : ℕ) : Vec2 :=
  pts.getD ((seg * 2 + 2) % pts.length) (0, 0)

/-- Coefficient of `t^2` in the Bezier difference: `a = p0 - 2*p1 + p2`. -/
def aCoef (pts : List Vec2) (seg : ℕ) : Vec2 :=
  segP0 pts seg - smul2 2 (segP1 pts seg) + segP2 pts seg

/-- Coefficient of `t`: `b = 2*(p1 - p0)`. -/
def bCoef (pts : List Vec2) (seg : ℕ) : Vec2 :=
  smul2 2 (segP1 pts seg - segP0 pts seg)

/-- Constant term: `c = p0 - position` (offset from the query point). -/
def cCoef (pts : List Vec2) (q : Vec2) (seg : ℕ) : Vec2 := segP0 pts seg - q

/-- The difference `B(t) - Q = c + t*b + t^2*a` for a segment. -/
def bezDiff (a b c : Vec2) (t : ℚ) : Vec2 := c + smul2 t b + smul2 (t * t) a

/-- Squared distance from the query point at local parameter `t`,
`dot(B(t)-Q, B(t)-Q)` as evaluated by the source. -/
def segDistSqAt (a b c : Vec2) (t : ℚ) : ℚ := dot2 (bezDiff a b c t) (bezDiff a b c t)

/-- The Newton iteration of `Track::getClosestT` (`track.cpp:295-325`): at
most `fuel` steps on `f(t) = dot(B(t)-Q, B'(t))`, stopping early when
`|f'(t)| < 1e-6` or when the clamped step moves by less than `1e-6`; each
iterate is clamped into `[0,1]`.  A `break` returns the pre-step `t`,
exactly as in the source. -/
def newtonRefine (a b c : Vec2) : ℕ → ℚ → ℚ
  | 0, t => t
  | fuel + 1, t =>
      let Bt := bezDiff a b c t
      let dBt := b + smul2 (2 * t) a
      let f := dot2 Bt dBt
      let df := dot2 dBt dBt + dot2 Bt (smul2 2 a)
      if |df| < 1 / 1000000 then t
      else
        let newT := max 0 (min 1 (t - f / df))
        if |newT - t| < 1 / 1000000 then t
        else newtonRefine a b c fuel newT

/-- The refined candidate started from seed `i/10` (`candidates[i]` with 11
candidates and 5 Newton iterations). -/
def refineSeed (a b c : Vec2) (i : ℕ) : ℚ := newtonRefine a b c 5 ((i : ℚ) / 10)

/-- Squared distance at the raw (unrefined) seed `i/10` of a segment; the
quantity the specification's sanity bound refers to. -/
def seedDistSq (pts : List Vec2) (q : Vec2) (seg i : ℕ) : ℚ :=
  segDistSqAt (aCoef pts seg) (bCoef pts seg) (cCoef pts q seg) ((i : ℚ) / 10)

/-- The strict-minimum scan shared by both loops of `Track::getClosestT`:
fold candidates in order, keeping a `(bestDistSq, bestT)` pair and replacing
it only on strictly smaller distance. -/
def scanMinQ (f : ℕ → ℚ × ℚ) (l : List ℕ) (acc : ℚ × ℚ) : ℚ × ℚ :=
  l.foldl (fun acc i => let p := f i; if p.1 < acc.1 then p else acc) acc

/-- The per-segment candidate: refined local parameter and its squared
distance (`track.cpp:290-336`). -/
def segCandidate (pts : List Vec2) (q : Vec2) (seg i : ℕ) : ℚ × ℚ :=
  let a := aCoef pts seg
  let b := bCoef pts seg
  let c := cCoef pts q seg
  let t := refineSeed a b c i
  (segDistSqAt a b c t, t)

/-- The inner loop of `Track::getClosestT`: scan the 11 seeds of a segment,
starting from `(FLT_MAX, 0)`. -/
def segmentScan (pts : List Vec2) (q : Vec2) (seg : ℕ) : ℚ × ℚ :=
  scanMinQ (segCandidate pts q seg) (List.range 11) (floatMax, 0)

/-- The outer loop of `Track::getClosestT`: scan all segments, converting the
local parameter to a global one by adding the segment index; the result pair
is `(globalMinDistSq, globalClosestT)` starting from `(FLT_MAX, 0)`. -/
def getClosestTPair (pts : List Vec2) (q : Vec2) : ℚ × ℚ :=
  scanMinQ (fun seg => ((segmentScan pts q seg).1, (seg : ℚ) + (segmentScan pts q seg).2))
    (List.range (numSegmentsOf pts)) (floatMax, 0)

/-- `Track::getClosestT`: the global parameter of the best candidate found. -/
def getClosestT (pts : List Vec2) (q : Vec2) : ℚ := (getClosestTPair pts q).2

/-- The concrete 4-point (2-segment) curve of the `getClosestT` analysis. -/
def cexPts : List Vec2 := [(0, 1/2), (23/10, 29/10), (39/10, 7/10), (13/5, 12/5)]

/-- The concrete query point of the `getClosestT` analysis. -/
def cexQ : Vec2 := (-4, -4)

/-! ## Waypoint sampling (`Track::getWaypoints`, `track.cpp:351-381`) -/

/-- `TRACK_WIDTH` (`track.cpp:12`). -/
def trackWidthC : ℚ := 12

/-- `halfWidth = TRACK_WIDTH / 2` (`track.cpp:356`, `vehicle.cpp:422`). -/
def halfWidthC : ℚ := trackWidthC / 2

/-- The wrap of a parameter into `[0, numSegments)` performed by the two
`while` loops of `Track::getWaypoints` (`track.cpp:362-366`): repeatedly
subtract `numSegments` while `t ≥ numSegments`, then repeatedly add while
`t < 0`.  For `0 < n` the loops terminate and compute exactly
`t - n * ⌊t / n⌋`, the unique representative in `[0, n)` differing from `t`
by an integer multiple of `n` (see `wrapT_mem` and `wrapT_sub_int` below);
for `n = 0` the source loop does not terminate, so `0 < n` is the meaningful
domain. -/
def wrapT (n : ℕ) (t : ℚ) : ℚ := t - (n : ℚ) * (⌊t / (n : ℚ)⌋ : ℚ)

/-- The wrapped global parameter of waypoint `i` (`t = currentT + i*spacing`
wrapped into `[0, numSegments)`). -/
def wpParam (pts : List Vec2) (currentT spacing : ℚ) (i : ℕ) : ℚ :=
  wrapT (numSegmentsOf pts) (currentT + (i : ℚ) * spacing)

/-- The left boundary point of waypoint `i`: curve position plus
`normal * halfWidth`, lifted to ground height `y = 0`
(`track.cpp:371-373`).  The source's `getNormal` divides by a square root
inside `glm::normalize`, so the normal function is kept abstract. -/
def leftWaypoint (normF : ℚ → Vec2) (pts : List Vec2) (currentT spacing : ℚ) (i : ℕ) : Vec3 :=
  let t := wpParam pts currentT spacing i
  let leftPos := getPosition pts t + smul2 halfWidthC (normF t)
  (leftPos.1, 0, leftPos.2)

/-- The right boundary point of waypoint `i`: curve position minus
`normal * halfWidth`, lifted to ground height (`track.cpp:375-377`). -/
def rightWaypoint (normF : ℚ → Vec2) (pts : List Vec2) (currentT spacing : ℚ) (i : ℕ) : Vec3 :=
  let t := wpParam pts currentT spacing i
  let rightPos := getPosition pts t - smul2 halfWidthC (normF t)
  (rightPos.1, 0, rightPos.2)

/-- `Track::getWaypoints`: for `i` in `[0, count)` emit the left then the
right boundary point of the wrapped parameter `currentT + i*spacing`. -/
def getWaypoints (normF : ℚ → Vec2) (pts : List Vec2) (currentT : ℚ) (count : ℕ)
    (spacing : ℚ) : List Vec3 :=
  (List.range count).flatMap fun i =>
    [leftWaypoint normF pts currentT spacing i, rightWaypoint normF pts currentT spacing i]

/-! ## Rigid body (`physics.cpp`, `physics.h`) -/

/-- `PhysicsBody` (`physics.h:37-70`): mass, per-axis inertia, pose,
velocities and the force/torque accumulators.  The collision shape pointer
only feeds the inertia value at construction and is not part of the dynamic
state. -/
structure PBody where
  mass : ℚ
  inertia : Vec3
  position : Vec3
  velocity : Vec3
  orientation : Quat
  angularVelocity : Vec3
  accumulatedForce : Vec3
  accumulatedTorque : Vec3
deriving DecidableEq, Repr

/-- `PhysicsBody::applyForce` (`physics.cpp:7-10`). -/
def PBody.applyForce (b : PBody) (force : Vec3) : PBody :=
  { b with accumulatedForce := b.accumulatedForce + force }

/-- `PhysicsBody::applyForceAtPoint` (`physics.cpp:12-17`): accumulate the
force and the torque `cross(point - position, force)`. -/
def PBody.applyForceAtPoint (b : PBody) (force point : Vec3) : PBody :=
  { b with
    accumulatedForce := b.accumulatedForce + force
    accumulatedTorque := b.accumulatedTorque + cross3 (point - b.position) force }

/-- Componentwise division of a vector by a scalar (`glm::vec3 / float`). -/
def sdiv3 (v : Vec3) (c : ℚ) : Vec3 := (v.1 / c, v.2.1 / c, v.2.2 / c)

/-- Componentwise division of vectors (`glm::vec3 / glm::vec3`), as used for
`accumulatedTorque / inertia`. -/
def vdiv3 (a b : Vec3) : Vec3 := (a.1 / b.1, a.2.1 / b.2.1, a.2.2 / b.2.2)

/-- Quaternion addition (`glm::operator+(quat, quat)`). -/
def quatAdd (a b : Quat) : Quat := ⟨a.w + b.w, a.x + b.x, a.y + b.y, a.z + b.z⟩

/-- Quaternion scaling (`glm::operator*(float, quat)`). -/
def quatScale (c : ℚ) (q : Quat) : Quat := ⟨c * q.w, c * q.x, c * q.y, c * q.z⟩

/-- `PhysicsBody::step` (`physics.cpp:19-39`): when `mass > 0`, semi-implicit
Euler on linear state, componentwise torque/inertia division on angular
velocity, first-order quaternion integration followed by `glm::normalize`;
when `mass ≤ 0` the pose is untouched.  In both cases the accumulators are
cleared.  `glm::normalize` divides by a square root, so the quaternion
normalization is kept abstract as the parameter `normQ`; no property proved
here depends on its values. -/
def PBody.step (normQ : Quat → Quat) (dt : ℚ) (b : PBody) : PBody :=
  let moved :=
    if 0 < b.mass then
      let acceleration := sdiv3 b.accumulatedForce b.mass
      let velocity := b.velocity + smul3 dt acceleration
      let position := b.position + smul3 dt velocity
      let angularAcceleration := vdiv3 b.accumulatedTorque b.inertia
      let angularVelocity := b.angularVelocity + smul3 dt angularAcceleration
      let angularVelQuat : Quat := ⟨0, angularVelocity.1, angularVelocity.2.1, angularVelocity.2.2⟩
      let orientation :=
        normQ (quatAdd b.orientation
          (quatScale dt (quatMul (quatScale (1/2) angularVelQuat) b.orientation)))
      { b with position := position, velocity := velocity,
               angularVelocity := angularVelocity, orientation := orientation }
    else b
  { moved with accumulatedForce := (0, 0, 0), accumulatedTorque := (0, 0, 0) }

/-- A call against a `PhysicsBody`: the operations a caller may interleave. -/
inductive BodyOp where
  | applyForce (force : Vec3)
  | applyForceAtPoint (force point : Vec3)
  | step (dt : ℚ)
deriving Repr

/-- Run a sequence of body operations in order. -/
def runBodyOps (normQ : Quat → Quat) : List BodyOp → PBody → PBody
  | [], b => b
  | op :: rest, b =>
      runBodyOps normQ rest
        (match op with
         | .applyForce f => b.applyForce f
         | .applyForceAtPoint f p => b.applyForceAtPoint f p
         | .step dt => PBody.step normQ dt b)

/-! ## Vehicle wheel model (`vehicle.cpp`, `vehicle.h`) -/

/-- `SUSPENSION_DAMPING` (`vehicle.h:16`). -/
def suspensionDampingC : ℚ := 4500

/-- Pacejka magic-formula coefficients (`vehicle.h:23-29`). -/
structure PacejkaCoefficients where
  B : ℚ
  C : ℚ
  D : ℚ
  E : ℚ
deriving DecidableEq, Repr

/-- `PACEJKA_LONG` (`vehicle.h:31`). -/
def pacejkaLong : PacejkaCoefficients := ⟨10, 19/10, 1, 97/100⟩

/-- `PACEJKA_LAT` (`vehicle.h:32`). -/
def pacejkaLat : PacejkaCoefficients := ⟨8, 13/10, 1, -(16/10)⟩

/-- The transcendental functions used by the wheel model (`glm::sin`,
`glm::cos`, `glm::atan`).  They are kept abstract: every property proved
about the wheel step holds for arbitrary values of these functions. -/
structure TrigOracle where
  sin : ℚ → ℚ
  cos : ℚ → ℚ
  atan : ℚ → ℚ

/-- `Wheel::calculatePacejka` (`vehicle.h:54-61`). -/
def calculatePacejka (tr : TrigOracle) (slip : ℚ) (coeff : PacejkaCoefficients)
    (normalForce : ℚ) : ℚ :=
  let Fz := normalForce / 1000
  let D := coeff.D * Fz
  let input := coeff.B * slip
  let output := D * tr.sin (coeff.C * tr.atan (input - coeff.E * (input - tr.atan input)))
  output * 1000

/-- `glm::sign`. -/
def rsign (x : ℚ) : ℚ := if 0 < x then 1 else if x < 0 then -1 else 0

/-- `glm::angleAxis(angle, axis)`: quaternion with scalar part
`cos(angle/2)` and vector part `axis * sin(angle/2)`. -/
def angleAxisQ (tr : TrigOracle) (angle : ℚ) (axis : Vec3) : Quat :=
  let s := tr.sin (angle / 2)
  ⟨tr.cos (angle / 2), axis.1 * s, axis.2.1 * s, axis.2.2 * s⟩

/-- The `Wheel` record of `vehicle.h:34-62` (runtime state and parameter
fields used by `Vehicle::step` and `Vehicle::isOffTrack`). -/
structure Wheel where
  localPosition : Vec3
  restLength : ℚ
  wheelRadius : ℚ
  suspensionStiffness : ℚ
  suspensionDamping : ℚ
  inertia : ℚ
  compression : ℚ
  angularVelocity : ℚ
  rollAngle : ℚ
  steerAngle : ℚ
  driveTorque : ℚ
  brakeTorque : ℚ
  antiRollForce : ℚ
  lastContactPoint : Vec3
  hasContact : Bool
deriving DecidableEq, Repr

/-- The world-space suspension axis: the chassis local `-Y` axis rotated to
world (`vehicle.cpp:260`). -/
def suspAxisWorldOf (body : PBody) : Vec3 := quatRotate body.orientation (0, -1, 0)

/-- The world-space wheel mount position: chassis position plus the rotated
local mount offset, lowered by the wheel radius along local `-Y`
(`vehicle.cpp:258`). -/
def mountWorldOf (body : PBody) (w : Wheel) : Vec3 :=
  body.position + quatRotate body.orientation (w.localPosition - (0, w.wheelRadius, 0))

/-- The ray parameter of the suspension raycast against the plane `y = 0`:
`t = -mountWorld.y / axis.y` (`vehicle.cpp:269`). -/
def rayT (body : PBody) (w : Wheel) : ℚ :=
  -(mountWorldOf body w).2.1 / (suspAxisWorldOf body).2.1

/-- The magnitude-limited brake deceleration applied to a wheel's angular
velocity (`vehicle.cpp:336-345`): subtract `sign(w) * (brakeTorque/inertia) * dt`
when that is smaller than `|w|`, otherwise clamp to exactly `0`. -/
def brakeUpdate (angularVelocity brakeTorque inertia dt : ℚ) : ℚ :=
  let brakeAngularDecel := brakeTorque / inertia
  if brakeAngularDecel * dt < |angularVelocity| then
    angularVelocity - rsign angularVelocity * (brakeAngularDecel * dt)
  else 0

/-- The per-wheel body of the loop in `Vehicle::step` (`vehicle.cpp:255-349`):
the suspension raycast with its three skip guards, then the contact path
(suspension force, Pacejka tire forces, wheel spin and brake integration).
Returns the updated wheel together with the list of
`(force, point)` pairs passed to `applyForceAtPoint` on the chassis for this
wheel (empty on every skip path). -/
def stepWheel (tr : TrigOracle) (body : PBody) (dt : ℚ) (w : Wheel) :
    Wheel × List (Vec3 × Vec3) :=
  let mountWorld := mountWorldOf body w
  let suspAxisWorld := suspAxisWorldOf body
  let k := w.suspensionStiffness
  let denom := suspAxisWorld.2.1
  if |denom| < 1/10000 then (w, [])
  else
    let t := rayT body w
    if t < 0 then ({ w with hasContact := false }, [])
    else if w.restLength < t then ({ w with hasContact := false }, [])
    else
      let contactPoint := mountWorld + smul3 t suspAxisWorld
      let compression := w.restLength - t
      let compressionVelocity := (compression - w.compression) / dt
      let forceMag := k * compression + suspensionDampingC * compressionVelocity + w.antiRollForce
      let normal : Vec3 := (0, 1, 0)
      let suspensionForce := smul3 forceMag normal
      let steerQuat := angleAxisQ tr w.steerAngle (0, 1, 0)
      let wheelOrientation := quatMul body.orientation steerQuat
      let forwardDir := quatRotate wheelOrientation (0, 0, 1)
      let sideDir := quatRotate wheelOrientation (1, 0, 0)
      let r := contactPoint - body.position
      let contactVelocity := body.velocity + cross3 body.angularVelocity r
      let forwardSpeed := dot3 contactVelocity forwardDir
      let sideSpeed := dot3 contactVelocity sideDir
      let wheelCircumSpeed := w.angularVelocity * w.wheelRadius
      let slipRatio := (wheelCircumSpeed - forwardSpeed) / max |forwardSpeed| (1/10)
      let slipAngle := tr.atan (-sideSpeed / max |forwardSpeed| (1/10))
      let normalForce := forceMag
      let longitudinalForce := calculatePacejka tr slipRatio pacejkaLong normalForce
      let lateralForce := calculatePacejka tr slipAngle pacejkaLat normalForce
      let tireForce := suspensionForce + smul3 longitudinalForce forwardDir
        + smul3 lateralForce sideDir
      let wheelTorque := w.driveTorque - longitudinalForce * w.wheelRadius
      let angularAcceleration := wheelTorque / w.inertia
      let spunVelocity := w.angularVelocity + angularAcceleration * dt
      let brakedVelocity := brakeUpdate spunVelocity w.brakeTorque w.inertia dt
      ({ w with lastContactPoint := contactPoint, hasContact := true,
                compression := compression, angularVelocity := brakedVelocity,
                rollAngle := w.rollAngle + brakedVelocity * dt },
       [(tireForce, contactPoint)])

/-! ## Off-track predicate (`Vehicle::isOffTrack`, `vehicle.cpp:416-448`) -/

/-- A wheel is considered by `isOffTrack` when it has ever registered
contact: `hasContact` or a last contact point away from the origin
(`vehicle.cpp:428`, where `glm::length(p) < 0.01` is expressed on squared
lengths as `sqLen3 p < 1/10000`). -/
def consideredWheel (w : Wheel) : Bool :=
  w.hasContact || !(sqLen3 w.lastContactPoint < 1/10000)

/-- Projection of a world-space point to the 2D track plane
(`vehicle.cpp:432`: `(x, z)`). -/
def proj2D (v : Vec3) : Vec2 := (v.1, v.2.2)

/-- Whether a wheel's last contact point lies within half the track width of
the curve point at its closest parameter (`vehicle.cpp:435-442`, comparing
`glm::distance ≤ halfWidth` on squares). -/
def wheelWithinTrack (pts : List Vec2) (w : Wheel) : Bool :=
  let contactPoint2D := proj2D w.lastContactPoint
  let closestT := getClosestT pts contactPoint2D
  let trackPoint := getPosition pts closestT
  decide (sqDist2 contactPoint2D trackPoint ≤ halfWidthC * halfWidthC)

/-- `Vehicle::isOffTrack`: `false` for a null track; otherwise `true` exactly
when no considered wheel is within half-width (the source's early-return
loop over the four wheels). -/
def isOffTrack (track : Option (List Vec2)) (wheels : List Wheel) : Bool :=
  match track with
  | none => false
  | some pts => !(wheels.any fun w => consideredWheel w && wheelWithinTrack pts w)

/-- `sim_is_vehicle_off_track` (`sim.cpp:554-563`): `1` when the vehicle's
`isOffTrack` against the context's (possibly absent) track holds, else `0`. -/
def simIsVehicleOffTrack (track : Option (List Vec2)) (wheels : List Wheel) : ℤ :=
  if isOffTrack track wheels then 1 else 0

/-! ## Observation export (`sim_get_observation`, `sim.cpp:565-606`) -/

/-- The waypoint-writing loop of `sim_get_observation` (`sim.cpp:590-596`):
walk the waypoint list in order, and for each point append the two floats
`(dot(rel, right), dot(rel, forward))` while `idx + 2 ≤ max_floats`;
the first point that does not fit breaks out of the loop.  Returns the
floats written and the final `idx`. -/
def writeWaypointFloats (vehiclePos right forward : Vec3) (maxFloats : ℤ) :
    List Vec3 → ℤ → List ℚ × ℤ
  | [], idx => ([], idx)
  | wp :: rest, idx =>
      if maxFloats < idx + 2 then ([], idx)
      else
        let rel := wp - vehiclePos
        let out := writeWaypointFloats vehiclePos right forward maxFloats rest (idx + 2)
        (dot3 rel right :: dot3 rel forward :: out.1, out.2)

/-- `sim_get_observation` (`sim.cpp:565-606`) on a valid context and vehicle:
returns `0` for a non-positive buffer size or an absent track; otherwise
finds the vehicle's closest parameter, samples `20` waypoint pairs spaced
`0.1` apart, writes whole `(lateral, longitudinal)` pairs while they fit and
appends the three velocity floats when they fit.  The result is the returned
count together with the written buffer.  `glm::normalize` (a square root)
and `Track::getNormal` are kept abstract as `vnorm` and `normF`. -/
def simGetObservation (normF : ℚ → Vec2) (vnorm : Vec3 → Vec3)
    (track : Option (List Vec2)) (body : PBody) (maxFloats : ℤ) : ℤ × List ℚ :=
  if maxFloats ≤ 0 then (0, [])
  else
    match track with
    | none => (0, [])
    | some pts =>
        let vehiclePos := body.position
        let currentT := getClosestT pts (vehiclePos.1, vehiclePos.2.2)
        let waypoints := getWaypoints normF pts currentT 20 (1/10)
        let forward := vnorm (quatRotate body.orientation (0, 0, 1))
        let right := vnorm (quatRotate body.orientation (1, 0, 0))
        let out := writeWaypointFloats vehiclePos right forward maxFloats waypoints 0
        if out.2 + 3 ≤ maxFloats then
          let vel := body.velocity
          (out.2 + 3,
           out.1 ++ [dot3 vel forward, dot3 vel right, body.angularVelocity.2.1])
        else (out.2, out.1)

/-! ## Theorems -/

/-- C9: `applyForce` and `applyForceAtPoint` modify only the force and
torque accumulators — mass, inertia, position, velocity, orientation and
angular velocity are unchanged by either call. -/
theorem applyForce_modifies_only_accumulators (b : PBody) (f p : Vec3) :
    ((b.applyForce f).mass = b.mass ∧ (b.applyForce f).inertia = b.inertia ∧
     (b.applyForce f).position = b.position ∧ (b.applyForce f).velocity = b.velocity ∧
     (b.applyForce f).orientation = b.orientation ∧
     (b.applyForce f).angularVelocity = b.angularVelocity)
  ∧ ((b.applyForceAtPoint f p).mass = b.mass ∧
     (b.applyForceAtPoint f p).inertia = b.inertia ∧
     (b.applyForceAtPoint f p).position = b.position ∧
     (b.applyForceAtPoint f p).velocity = b.velocity ∧
     (b.applyForceAtPoint f p).orientation = b.orientation ∧
     (b.applyForceAtPoint f p).angularVelocity = b.angularVelocity) :=
  ⟨⟨rfl, rfl, rfl, rfl, rfl, rfl⟩, ⟨rfl, rfl, rfl, rfl, rfl, rfl⟩⟩

/-- C10: with a null track a vehicle is never reported off-track, and the
boundary function `sim_is_vehicle_off_track` correspondingly returns `0`
when no track is loaded. -/
theorem isOffTrack_null_track (ws : List Wheel) :
    isOffTrack none ws = false ∧ simIsVehicleOffTrack none ws = 0 :=
  ⟨rfl, rfl⟩

/-- Mass-zero bodies keep their mass, position and velocity across any
operation sequence (auxiliary induction for the claim about kinematic
bodies). -/
theorem runBodyOps_massZero (normQ : Quat → Quat) (ops : List BodyOp) (b : PBody)
    (h : b.mass = 0) :
    (runBodyOps normQ ops b).mass = 0 ∧
    (runBodyOps normQ ops b).position = b.position ∧
    (runBodyOps normQ ops b).velocity = b.velocity := by
  induction ops generalizing b with
  | nil => exact ⟨h, rfl, rfl⟩
  | cons op rest ih =>
    cases op with
    | applyForce f => exact ih (b.applyForce f) h
    | applyForceAtPoint f p => exact ih (b.applyForceAtPoint f p) h
    | step dt =>
        have hlt : ¬ 0 < b.mass := by rw [h]; exact lt_irrefl 0
        have hstep : PBody.step normQ dt b
            = { b with accumulatedForce := (0, 0, 0), accumulatedTorque := (0, 0, 0) } := by
          simp [PBody.step, hlt]
        have hrec := ih (PBody.step normQ dt b) (by rw [hstep]; exact h)
        refine ⟨hrec.1, ?_, ?_⟩
        · rw [show (runBodyOps normQ (BodyOp.step dt :: rest) b)
              = runBodyOps normQ rest (PBody.step normQ dt b) from rfl,
            hrec.2.1, hstep]
        · rw [show (runBodyOps normQ (BodyOp.step dt :: rest) b)
              = runBodyOps normQ rest (PBody.step normQ dt b) from rfl,
            hrec.2.2, hstep]

/-- C5: a body with `mass = 0` keeps its position and velocity under any
interleaving of `applyForce` / `applyForceAtPoint` / `step` calls, for any
`dt`, forces and number of steps, while every `step` still resets the force
and torque accumulators to zero (for every body, not only kinematic ones). -/
theorem massZero_body_static (normQ : Quat → Quat) (ops : List BodyOp) (b : PBody)
    (h : b.mass = 0) :
    ((runBodyOps normQ ops b).position = b.position ∧
     (runBodyOps normQ ops b).velocity = b.velocity)
  ∧ ∀ (dt : ℚ) (c : PBody),
      (PBody.step normQ dt c).accumulatedForce = (0, 0, 0) ∧
      (PBody.step normQ dt c).accumulatedTorque = (0, 0, 0) := by
  refine ⟨⟨(runBodyOps_massZero normQ ops b h).2.1, (runBodyOps_massZero normQ ops b h).2.2⟩,
    fun dt c => ⟨rfl, rfl⟩⟩

/-- The concrete operation sequence of the mass-zero witness. -/
def witnessOps : List BodyOp :=
  [.applyForce (1, 2, 3), .step 1, .applyForceAtPoint (5, 0, 0) (0, 1, 0), .step (1/2)]

/-- The concrete mass-zero body of the witness. -/
def witnessBody : PBody :=
  ⟨0, (1, 1, 1), (1, 2, 3), (4, 5, 6), ⟨1, 0, 0, 0⟩, (0, 0, 0), (0, 0, 0), (0, 0, 0)⟩

/-- Witness for the mass-zero claim at a concrete body and operation list. -/
theorem massZero_body_static_witness :
    witnessBody.mass = 0 ∧
    (runBodyOps (fun q => q) witnessOps witnessBody).position = witnessBody.position :=
  ⟨rfl, (massZero_body_static (fun q => q) witnessOps witnessBody rfl).1.1⟩

/-- C7: braking changes a wheel's angular velocity by at most
`(brakeTorque/inertia) * dt` toward zero, never reverses its sign, and
clamps to exactly `0` whenever the available deceleration exceeds the
current magnitude. -/
theorem brakeUpdate_toward_zero (w bt inert dt : ℚ) (h : 0 ≤ bt / inert * dt) :
    |brakeUpdate w bt inert dt - w| ≤ bt / inert * dt
  ∧ |brakeUpdate w bt inert dt| ≤ |w|
  ∧ 0 ≤ w * brakeUpdate w bt inert dt
  ∧ (|w| < bt / inert * dt → brakeUpdate w bt inert dt = 0) := by
  have hbu : brakeUpdate w bt inert dt
      = if bt / inert * dt < |w| then w - rsign w * (bt / inert * dt) else 0 := rfl
  set d := bt / inert * dt with hd
  by_cases hc : d < |w|
  · rw [hbu, if_pos hc]
    rcases lt_trichotomy w 0 with hw | hw | hw
    · have hs : rsign w = -1 := by
        rw [rsign, if_neg (by linarith), if_pos hw]
      have habs : |w| = -w := abs_of_neg hw
      rw [hs]
      have hlt : w + d < 0 := by rw [habs] at hc; linarith
      refine ⟨?_, ?_, ?_, ?_⟩
      · rw [show w - -1 * d - w = d by ring, abs_of_nonneg h]
      · rw [show w - -1 * d = w + d by ring, abs_of_neg hlt, habs]; linarith
      · have : 0 < w * (w + d) := mul_pos_of_neg_of_neg hw hlt
        rw [show w - -1 * d = w + d by ring]; linarith
      · intro hcon; linarith
    · exfalso; rw [hw] at hc; simp at hc; linarith
    · have hs : rsign w = 1 := by rw [rsign, if_pos hw]
      have habs : |w| = w := abs_of_pos hw
      rw [hs]
      have hgt : 0 < w - d := by rw [habs] at hc; linarith
      refine ⟨?_, ?_, ?_, ?_⟩
      · rw [show w - 1 * d - w = -d by ring, abs_neg, abs_of_nonneg h]
      · rw [show w - 1 * d = w - d by ring, abs_of_pos hgt, habs]; linarith
      · have : 0 < w * (w - d) := mul_pos hw hgt
        rw [show w - 1 * d = w - d by ring]; linarith
      · intro hcon; linarith
  · rw [hbu, if_neg hc]
    push_neg at hc
    refine ⟨?_, ?_, ?_, fun _ => rfl⟩
    · rw [zero_sub, abs_neg]; exact hc
    · simp
    · simp

/-- Witness for the brake-clamp claim at concrete wheel numbers. -/
theorem brakeUpdate_toward_zero_witness :
    (0 : ℚ) ≤ 3000 / 2 * (1/600)
  ∧ |brakeUpdate 5 3000 2 (1/600) - 5| ≤ 3000 / 2 * (1/600) :=
  ⟨by norm_num, (brakeUpdate_toward_zero 5 3000 2 (1/600) (by norm_num)).1⟩

/-- C1 (amended): on every skipped suspension raycast the wheel contributes
no force to the chassis and its stored compression is unchanged; the
`t < 0` and `t > restLength` cases mark `hasContact = false`, while the
axis-parallel case (`|axis.y| < 1e-4`) leaves the whole wheel record — in
particular `hasContact` — unchanged. -/
theorem stepWheel_skip_behavior (tr : TrigOracle) (body : PBody) (dt : ℚ) (w : Wheel) :
    (|(suspAxisWorldOf body).2.1| < 1/10000 → stepWheel tr body dt w = (w, []))
  ∧ (¬ |(suspAxisWorldOf body).2.1| < 1/10000 → rayT body w < 0 →
       stepWheel tr body dt w = ({ w with hasContact := false }, []))
  ∧ (¬ |(suspAxisWorldOf body).2.1| < 1/10000 → ¬ rayT body w < 0 →
       w.restLength < rayT body w →
       stepWheel tr body dt w = ({ w with hasContact := false }, [])) := by
  refine ⟨fun h1 => ?_, fun h1 h2 => ?_, fun h1 h2 h3 => ?_⟩
  · rw [stepWheel, if_pos h1]
  · rw [stepWheel, if_neg h1, if_pos h2]
  · rw [stepWheel, if_neg h1, if_neg h2, if_pos h3]

/-- The chassis orientation of the axis-parallel counterexample: the unit
quaternion `(1/2, 1/2, 1/2, 1/2)` rotates the local `-Y` axis onto
`(0, 0, -1)`, whose world `y` component is exactly `0`. -/
def cexOrient : Quat := ⟨1/2, 1/2, 1/2, 1/2⟩

/-- A chassis state whose suspension axis is parallel to the ground. -/
def cexBody1 : PBody :=
  ⟨1200, (1, 1, 1), (0, 3/4, 0), (0, 0, 0), cexOrient, (0, 0, 0), (0, 0, 0), (0, 0, 0)⟩

/-- A wheel that has registered contact on an earlier tick. -/
def cexWheel1 : Wheel :=
  { localPosition := (1, -3/20, 2), restLength := 1/2, wheelRadius := 35/100,
    suspensionStiffness := 70000, suspensionDamping := 4500, inertia := 245/400,
    compression := 3/100, angularVelocity := 2, rollAngle := 0, steerAngle := 0,
    driveTorque := 0, brakeTorque := 0, antiRollForce := 0,
    lastContactPoint := (1, 0, 2), hasContact := true }

/-- A trigonometry oracle for concrete evaluations (its values are never
reached on the skip paths). -/
def trZero : TrigOracle := ⟨fun _ => 0, fun _ => 0, fun _ => 0⟩

unseal Rat.add Rat.sub Rat.mul Rat.inv in
/-- C1 counterexample: on the axis-parallel skip the wheel is NOT marked
`hasContact = false` — it keeps its previous `true` — even though the tick
is skipped (no force, compression unchanged). -/
theorem stepWheel_parallel_keeps_hasContact :
    |(suspAxisWorldOf cexBody1).2.1| < 1/10000
  ∧ (stepWheel trZero cexBody1 (1/600) cexWheel1).1.hasContact = true
  ∧ (stepWheel trZero cexBody1 (1/600) cexWheel1).2 = []
  ∧ (stepWheel trZero cexBody1 (1/600) cexWheel1).1.compression = cexWheel1.compression := by
  decide

/-- A chassis state with identity orientation below the ground plane, so
the downward ray points away from the ground (`t < 0`). -/
def cexBody2 : PBody :=
  ⟨1200, (1, 1, 1), (0, -2, 0), (0, 0, 0), ⟨1, 0, 0, 0⟩, (0, 0, 0), (0, 0, 0), (0, 0, 0)⟩

unseal Rat.add Rat.sub Rat.mul Rat.inv in
/-- Witness for the skip-case theorem: the `t < 0` case at a concrete body
and wheel, discharging both guard hypotheses. -/
theorem stepWheel_skip_behavior_witness :
    (¬ |(suspAxisWorldOf cexBody2).2.1| < 1/10000)
  ∧ rayT cexBody2 cexWheel1 < 0
  ∧ stepWheel trZero cexBody2 (1/600) cexWheel1 = ({ cexWheel1 with hasContact := false }, []) :=
  ⟨by decide, by decide,
   (stepWheel_skip_behavior trZero cexBody2 (1/600) cexWheel1).2.1
     (by decide) (by decide)⟩

/-- C4: against a loaded track the vehicle is on-track (`isOffTrack` is
`false`) exactly when some wheel that has ever registered contact has its
last contact point within half the track width of the curve point at its
closest parameter; `isOffTrack` is `true` exactly when every such
contact-bearing wheel is outside half-width (in particular when no wheel
has ever contacted the ground). -/
theorem isOffTrack_considered_wheels (pts : List Vec2) (ws : List Wheel) :
    (isOffTrack (some pts) ws = false ↔
       ∃ w ∈ ws, consideredWheel w = true ∧ wheelWithinTrack pts w = true)
  ∧ (isOffTrack (some pts) ws = true ↔
       ∀ w ∈ ws, consideredWheel w = true → wheelWithinTrack pts w = false) := by
  constructor
  · rw [show isOffTrack (some pts) ws
        = !(ws.any fun w => consideredWheel w && wheelWithinTrack pts w) from rfl]
    simp [List.any_eq_true]
  · rw [show isOffTrack (some pts) ws
        = !(ws.any fun w => consideredWheel w && wheelWithinTrack pts w) from rfl]
    simp [List.any_eq_false]

/-- C6: the curve is a closed loop — the position at `t` equals the position
at `t + numSegments` exactly (the model works in exact arithmetic, so the
floating tolerance of the specification is met with equality).  `t ≥ 0` is
the meaningful parameter domain (negative `t` indexes out of bounds in the
source) and a loaded curve has at least one segment. -/
theorem getPosition_periodic (pts : List Vec2) (t : ℚ) (_ht : 0 ≤ t)
    (_hn : 0 < numSegmentsOf pts) :
    getPosition pts t = getPosition pts (t + (numSegmentsOf pts : ℚ)) := by
  have hfl : ⌊t + (numSegmentsOf pts : ℚ)⌋ = ⌊t⌋ + (numSegmentsOf pts : ℤ) := by
    rw [show ((numSegmentsOf pts : ℚ)) = ((numSegmentsOf pts : ℤ) : ℚ) by push_cast; rfl]
    exact Int.floor_add_int t _
  have hmod : (⌊t⌋ + (numSegmentsOf pts : ℤ)) % (numSegmentsOf pts : ℤ)
      = ⌊t⌋ % (numSegmentsOf pts : ℤ) := by
    have := Int.add_mul_emod_self_left ⌊t⌋ (numSegmentsOf pts : ℤ) 1
    rwa [Int.mul_one] at this
  have hloc : t + (numSegmentsOf pts : ℚ) - ((⌊t⌋ + (numSegmentsOf pts : ℤ) : ℤ) : ℚ)
      = t - (⌊t⌋ : ℚ) := by
    push_cast; ring
  simp only [getPosition, hfl, hmod, hloc]

unseal Rat.add Rat.sub Rat.mul Rat.inv in
/-- Witness for curve periodicity at a concrete curve and parameter. -/
theorem getPosition_periodic_witness :
    ((0:ℚ) ≤ 3/2 ∧ 0 < numSegmentsOf [((0:ℚ), (0:ℚ)), (1, 0)])
  ∧ getPosition [((0:ℚ), (0:ℚ)), (1, 0)] (3/2)
      = getPosition [((0:ℚ), (0:ℚ)), (1, 0)]
          (3/2 + (numSegmentsOf [((0:ℚ), (0:ℚ)), (1, 0)] : ℚ)) :=
  ⟨⟨by decide, by decide⟩,
   getPosition_periodic [((0:ℚ), (0:ℚ)), (1, 0)] (3/2) (by decide) (by decide)⟩

/-- The wrapped parameter lies in `[0, numSegments)`, as the source's two
`while` loops guarantee on termination. -/
theorem wrapT_mem (n : ℕ) (hn : 0 < n) (t : ℚ) :
    0 ≤ wrapT n t ∧ wrapT n t < n := by
  have hnq : (0:ℚ) < (n:ℚ) := by exact_mod_cast hn
  constructor
  · have := Int.floor_le (t / (n:ℚ))
    have h2 : (n:ℚ) * (⌊t / (n:ℚ)⌋ : ℚ) ≤ (n:ℚ) * (t / (n:ℚ)) :=
      mul_le_mul_of_nonneg_left this (le_of_lt hnq)
    rw [mul_div_cancel₀ t (ne_of_gt hnq)] at h2
    simpa [wrapT] using h2
  · have := Int.lt_floor_add_one (t / (n:ℚ))
    have h2 : (n:ℚ) * (t / (n:ℚ)) < (n:ℚ) * ((⌊t / (n:ℚ)⌋ : ℚ) + 1) :=
      mul_lt_mul_of_pos_left this hnq
    rw [mul_div_cancel₀ t (ne_of_gt hnq)] at h2
    rw [wrapT]
    nlinarith
  
/-- The wrap only shifts the parameter by an integer multiple of
`numSegments`, as the add/subtract loops do. -/
theorem wrapT_sub_int (n : ℕ) (t : ℚ) :
    ∃ k : ℤ, t - wrapT n t = (k : ℚ) * (n : ℚ) := by
  exact ⟨⌊t / (n:ℚ)⌋, by rw [wrapT]; ring⟩

/-- The waypoint list has exactly `2 * count` entries. -/
theorem getWaypoints_length (normF : ℚ → Vec2) (pts : List Vec2) (currentT : ℚ)
    (count : ℕ) (spacing : ℚ) :
    (getWaypoints normF pts currentT count spacing).length = 2 * count := by
  induction count with
  | zero => rfl
  | succ m ih =>
      rw [getWaypoints, List.range_succ, List.flatMap_append]
      rw [getWaypoints] at ih
      simp only [List.length_append, ih, List.flatMap_cons, List.flatMap_nil]
      simp; omega

/-- The entries at positions `2*i` and `2*i + 1` are the `i`-th left and
right boundary points, in that order. -/
theorem getWaypoints_getD (normF : ℚ → Vec2) (pts : List Vec2) (currentT : ℚ)
    (count : ℕ) (spacing : ℚ) (i : ℕ) (h : i < count) :
    (getWaypoints normF pts currentT count spacing).getD (2*i) (0,0,0)
      = leftWaypoint normF pts currentT spacing i
  ∧ (getWaypoints normF pts currentT count spacing).getD (2*i+1) (0,0,0)
      = rightWaypoint normF pts currentT spacing i := by
  induction count with
  | zero => omega
  | succ m ih =>
      rw [getWaypoints, List.range_succ, List.flatMap_append]
      have hlen : ((List.range m).flatMap fun j =>
          [leftWaypoint normF pts currentT spacing j,
           rightWaypoint normF pts currentT spacing j]).length = 2 * m := by
        rw [show ((List.range m).flatMap fun j =>
            [leftWaypoint normF pts currentT spacing j,
             rightWaypoint normF pts currentT spacing j])
          = getWaypoints normF pts currentT m spacing from rfl]
        exact getWaypoints_length normF pts currentT m spacing
      rcases Nat.lt_or_ge i m with hi | hi
      · have hrec := ih hi
        rw [getWaypoints] at hrec
        constructor
        · rw [List.getD_append _ _ _ _ (by omega), hrec.1]
        · rw [List.getD_append _ _ _ _ (by omega), hrec.2]
      · have hieq : i = m := by omega
        subst hieq
        constructor
        · rw [List.getD_append_right _ _ _ _ (by omega)]
          simp [hlen]
        · rw [List.getD_append_right _ _ _ _ (by omega)]
          simp [hlen]

/-- C8: `getWaypoints(0, N, spacing)` produces exactly `2·N` points, ordered
by increasing `i` with the left boundary point at position `2i` and the
right at `2i+1`, and the midpoint of each pair equals the curve position at
the wrapped parameter `i·spacing`, lifted to ground height.  A loaded curve
has at least one segment (for `numSegments = 0` the source's wrap loop does
not terminate). -/
theorem getWaypoints_pairs_spec (normF : ℚ → Vec2) (pts : List Vec2) (count : ℕ)
    (spacing : ℚ) (_hn : 0 < numSegmentsOf pts) :
    (getWaypoints normF pts 0 count spacing).length = 2 * count
  ∧ ∀ i, i < count →
      ((getWaypoints normF pts 0 count spacing).getD (2*i) (0,0,0)
         = leftWaypoint normF pts 0 spacing i
       ∧ (getWaypoints normF pts 0 count spacing).getD (2*i+1) (0,0,0)
         = rightWaypoint normF pts 0 spacing i
       ∧ smul3 (1/2) (leftWaypoint normF pts 0 spacing i + rightWaypoint normF pts 0 spacing i)
         = ((getPosition pts (wrapT (numSegmentsOf pts) ((i:ℚ) * spacing))).1, 0,
            (getPosition pts (wrapT (numSegmentsOf pts) ((i:ℚ) * spacing))).2)) := by
  refine ⟨getWaypoints_length normF pts 0 count spacing, fun i hi => ?_⟩
  have hg := getWaypoints_getD normF pts 0 count spacing i hi
  refine ⟨hg.1, hg.2, ?_⟩
  have hwp : wpParam pts 0 spacing i = wrapT (numSegmentsOf pts) ((i:ℚ) * spacing) := by
    rw [wpParam, zero_add]
  simp only [leftWaypoint, rightWaypoint, hwp]
  rw [Prod.ext_iff, Prod.ext_iff]
  refine ⟨?_, ?_, ?_⟩
  · simp [smul3, smul2, Prod.fst_add, Prod.fst_sub]; ring
  · simp [smul3, smul2]
  · simp [smul3, smul2, Prod.snd_add, Prod.snd_sub]; ring

unseal Rat.add Rat.sub Rat.mul Rat.inv in
/-- Witness for the waypoint round-trip at a concrete curve, count and
spacing. -/
theorem getWaypoints_pairs_spec_witness :
    0 < numSegmentsOf [((0:ℚ), (0:ℚ)), (1, 0)]
  ∧ (getWaypoints (fun _ => ((0:ℚ), (1:ℚ))) [((0:ℚ), (0:ℚ)), (1, 0)] 0 2 (1/10)).length
      = 2 * 2 :=
  ⟨by decide,
   (getWaypoints_pairs_spec (fun _ => ((0:ℚ), (1:ℚ))) [((0:ℚ), (0:ℚ)), (1, 0)] 2 (1/10)
      (by decide)).1⟩

/-- The two floats written per waypoint boundary point: lateral then
longitudinal offset in the vehicle frame (`sim.cpp:593-595`). -/
def obsPairFloats (vehiclePos right forward : Vec3) (wp : Vec3) : List ℚ :=
  [dot3 (wp - vehiclePos) right, dot3 (wp - vehiclePos) forward]

/-- Characterization of the waypoint-writing loop: it writes the whole
`(lateral, longitudinal)` pairs of exactly the first
`min length ((maxFloats - idx) / 2)` waypoints and advances `idx` by two per
pair — never a half pair. -/
theorem writeWaypointFloats_spec (vp r f : Vec3) (maxF : ℤ) (wps : List Vec3) (idx : ℤ) :
    writeWaypointFloats vp r f maxF wps idx
      = ((wps.take (min wps.length ((maxF - idx) / 2).toNat)).flatMap (obsPairFloats vp r f),
         idx + 2 * (min wps.length ((maxF - idx) / 2).toNat : ℕ)) := by
  induction wps generalizing idx with
  | nil => simp [writeWaypointFloats]
  | cons wp rest ih =>
      rw [writeWaypointFloats]
      by_cases hc : maxF < idx + 2
      · rw [if_pos hc]
        have h0 : min (wp :: rest).length ((maxF - idx) / 2).toNat = 0 := by
          have : ((maxF - idx) / 2).toNat = 0 := by omega
          simp [this]
        rw [h0]; simp
      · rw [if_neg hc]
        have hb : ((maxF - idx) / 2).toNat = ((maxF - (idx + 2)) / 2).toNat + 1 := by omega
        have hmin : min (wp :: rest).length ((maxF - idx) / 2).toNat
            = min rest.length ((maxF - (idx + 2)) / 2).toNat + 1 := by
          simp only [List.length_cons, hb]
          omega
        rw [ih (idx + 2), hmin]
        simp only [List.take_succ_cons, List.flatMap_cons, obsPairFloats, Prod.mk.injEq]
        refine ⟨rfl, by push_cast; ring⟩

/-- C3 (amended): the full observation is `83` floats (two per each of the
`40` waypoint boundary points plus three velocity entries), so with
`max_floats = 43` the call returns `42` and the velocity tail is not
written; with `max_floats = 83` it returns exactly `83` and the last three
floats are `dot(v, forward)`, `dot(v, right)` and `angularVelocity.y`; and
for every `max_floats` the buffer consists of whole `(lateral, longitudinal)`
pairs of a waypoint prefix, optionally followed by the three velocity
floats — never a half pair. -/
theorem simGetObservation_layout (normF : ℚ → Vec2) (vnorm : Vec3 → Vec3)
    (pts : List Vec2) (body : PBody) :
    (simGetObservation normF vnorm (some pts) body 43).1 = 42
  ∧ (simGetObservation normF vnorm (some pts) body 83).1 = 83
  ∧ (∃ pre : List ℚ,
      (simGetObservation normF vnorm (some pts) body 83).2
        = pre ++ [dot3 body.velocity (vnorm (quatRotate body.orientation (0, 0, 1))),
                  dot3 body.velocity (vnorm (quatRotate body.orientation (1, 0, 0))),
                  body.angularVelocity.2.1])
  ∧ ∀ maxF : ℤ, ∃ (npairs : ℕ) (tail : List ℚ),
      (simGetObservation normF vnorm (some pts) body maxF).2
        = ((getWaypoints normF pts
              (getClosestT pts (body.position.1, body.position.2.2)) 20 (1/10)).take
                npairs).flatMap
            (obsPairFloats body.position (vnorm (quatRotate body.orientation (1, 0, 0)))
              (vnorm (quatRotate body.orientation (0, 0, 1))))
          ++ tail
      ∧ (tail = []
         ∨ tail = [dot3 body.velocity (vnorm (quatRotate body.orientation (0, 0, 1))),
                   dot3 body.velocity (vnorm (quatRotate body.orientation (1, 0, 0))),
                   body.angularVelocity.2.1]) := by
  have hlen := getWaypoints_length normF pts
    (getClosestT pts (body.position.1, body.position.2.2)) 20 (1/10)
  refine ⟨?_, ?_, ?_, ?_⟩
  · simp only [simGetObservation, writeWaypointFloats_spec, hlen]
    norm_num
  · simp only [simGetObservation, writeWaypointFloats_spec, hlen]
    norm_num
  · simp only [simGetObservation, writeWaypointFloats_spec, hlen]
    norm_num
  · intro maxF
    by_cases h0 : maxF ≤ 0
    · refine ⟨0, [], ?_, Or.inl rfl⟩
      simp [simGetObservation, h0]
    · by_cases h3 : 0 + 2 * ((min 40 ((maxF - 0) / 2).toNat : ℕ) : ℤ) + 3 ≤ maxF
      · refine ⟨min 40 ((maxF - 0) / 2).toNat,
          [dot3 body.velocity (vnorm (quatRotate body.orientation (0, 0, 1))),
           dot3 body.velocity (vnorm (quatRotate body.orientation (1, 0, 0))),
           body.angularVelocity.2.1], ?_, Or.inr rfl⟩
        simp only [simGetObservation, writeWaypointFloats_spec, hlen, if_neg h0]
        rw [if_pos (by exact_mod_cast h3)]
      · refine ⟨min 40 ((maxF - 0) / 2).toNat, [], ?_, Or.inl rfl⟩
        simp only [simGetObservation, writeWaypointFloats_spec, hlen, if_neg h0]
        rw [if_neg (by exact_mod_cast h3)]
        simp

/-- The concrete body of the observation counterexample: a vehicle resting
at the spawn height over the track origin. -/
def obsBody : PBody :=
  ⟨1200, (650, 1250, 1700), (0, 3/4, 0), (0, 0, 0), ⟨1, 0, 0, 0⟩, (0, 0, 0), (0, 0, 0), (0, 0, 0)⟩

set_option maxRecDepth 400000 in
unseal Rat.add Rat.sub Rat.mul Rat.inv in
/-- C3 counterexample: with a valid context, vehicle and loaded curve and
`max_floats = 43`, `sim_get_observation` returns `42` — not `43` — and the
three velocity floats are not written. -/
theorem simGetObservation_43_returns_42 :
    (simGetObservation (fun _ => ((0:ℚ), (1:ℚ))) (fun v => v)
      (some [((0:ℚ), (0:ℚ)), (1, 0)]) obsBody 43).1 = 42 := by
  decide

/-- Unfolding of the strict-minimum scan over a head candidate. -/
theorem scanMinQ_cons (f : ℕ → ℚ × ℚ) (j : ℕ) (rest : List ℕ) (acc : ℚ × ℚ) :
    scanMinQ f (j :: rest) acc
      = scanMinQ f rest (if (f j).1 < acc.1 then f j else acc) := rfl

/-- The scan result is no larger than the start accumulator and than every
scanned candidate. -/
theorem scanMinQ_le (f : ℕ → ℚ × ℚ) (l : List ℕ) (acc : ℚ × ℚ) :
    (scanMinQ f l acc).1 ≤ acc.1 ∧ ∀ i ∈ l, (scanMinQ f l acc).1 ≤ (f i).1 := by
  induction l generalizing acc with
  | nil => exact ⟨le_refl _, by simp⟩
  | cons j rest ih =>
      rw [scanMinQ_cons]
      rcases ih (if (f j).1 < acc.1 then f j else acc) with ⟨h1, h2⟩
      constructor
      · refine le_trans h1 ?_
        split
        · next hlt => exact le_of_lt hlt
        · exact le_refl _
      · intro i hi
        rcases List.mem_cons.mp hi with rfl | hmem
        · refine le_trans h1 ?_
          split
          · exact le_refl _
          · next hge => exact le_of_not_lt hge
        · exact h2 i hmem

/-- The scan result is the accumulator or one of the scanned candidates. -/
theorem scanMinQ_attained (f : ℕ → ℚ × ℚ) (l : List ℕ) (acc : ℚ × ℚ) :
    scanMinQ f l acc = acc ∨ ∃ i ∈ l, scanMinQ f l acc = f i := by
  induction l generalizing acc with
  | nil => exact Or.inl rfl
  | cons j rest ih =>
      rw [scanMinQ_cons]
      rcases ih (if (f j).1 < acc.1 then f j else acc) with h | ⟨i, hi, hh⟩
      · rw [h]
        split
        · exact Or.inr ⟨j, List.mem_cons_self j rest, rfl⟩
        · exact Or.inl rfl
      · exact Or.inr ⟨i, List.mem_cons_of_mem j hi, hh⟩

/-- Every Newton iterate stays inside `[0, 1]` (the source clamps each
step). -/
theorem newtonRefine_bounds (a b c : Vec2) (fuel : ℕ) (t : ℚ) (h0 : 0 ≤ t) (h1 : t ≤ 1) :
    0 ≤ newtonRefine a b c fuel t ∧ newtonRefine a b c fuel t ≤ 1 := by
  induction fuel generalizing t with
  | zero => exact ⟨h0, h1⟩
  | succ n ih =>
      simp only [newtonRefine]
      split
      · exact ⟨h0, h1⟩
      · split
        · exact ⟨h0, h1⟩
        · exact ih _ (le_max_left 0 _) (max_le (by norm_num) (min_le_left 1 _))

/-- The refined candidate of each seed stays inside `[0, 1]`. -/
theorem refineSeed_bounds (a b c : Vec2) (i : ℕ) (h : i < 11) :
    0 ≤ refineSeed a b c i ∧ refineSeed a b c i ≤ 1 := by
  refine newtonRefine_bounds a b c 5 ((i : ℚ) / 10) (by positivity) ?_
  rw [div_le_one (by norm_num)]
  exact_mod_cast Nat.lt_succ_iff.mp h

/-- Evaluating the curve at global parameter `seg + t` with a local
`t ∈ [0, 1]` gives exactly the squared distance of the segment's Bezier
difference polynomial at `t` (for an even point count; at `t = 1` this uses
that the wrapped third control point of a segment is the first control
point of the next). -/
theorem getPosition_seg_local (pts : List Vec2) (q : Vec2) (seg : ℕ) (tl : ℚ)
    (h2 : pts.length % 2 = 0) (hseg : seg < numSegmentsOf pts)
    (h0 : 0 ≤ tl) (h1 : tl ≤ 1) :
    sqDist2 (getPosition pts ((seg : ℚ) + tl)) q
      = segDistSqAt (aCoef pts seg) (bCoef pts seg) (cCoef pts q seg) tl := by
  have hn0 : 0 < numSegmentsOf pts := Nat.pos_of_ne_zero (by omega)
  have hlen2 : pts.length = 2 * numSegmentsOf pts := by
    rw [numSegmentsOf]; omega
  rcases lt_or_eq_of_le h1 with hlt | heq
  · have hfl0 : ⌊tl⌋ = 0 := Int.floor_eq_zero_iff.mpr (Set.mem_Ico.mpr ⟨h0, hlt⟩)
    have hfloor : ⌊(seg : ℚ) + tl⌋ = (seg : ℤ) := by
      rw [add_comm, show ((seg:ℚ)) = (((seg:ℤ)):ℚ) from by push_cast; rfl,
        Int.floor_add_int, hfl0, zero_add]
    have hmod : (seg : ℤ) % (numSegmentsOf pts : ℤ) = (seg : ℤ) :=
      Int.emod_eq_of_lt (by positivity) (by exact_mod_cast hseg)
    have hcast : (seg : ℚ) + tl - (((seg : ℤ)) : ℚ) = tl := by push_cast; ring
    simp only [getPosition, hfloor, hmod, Int.toNat_natCast, hcast,
      segDistSqAt, bezDiff, aCoef, bCoef, cCoef, segP0, segP1, segP2,
      sqDist2, dot2, smul2, Prod.fst_add, Prod.snd_add, Prod.fst_sub, Prod.snd_sub]
    ring
  · subst heq
    have hfloor : ⌊(seg : ℚ) + 1⌋ = (seg : ℤ) + 1 := by
      rw [show ((seg:ℚ) + 1) = (((seg:ℤ) + 1 : ℤ) : ℚ) from by push_cast; ring,
        Int.floor_intCast]
    have hcast : (seg : ℚ) + 1 - ((((seg : ℤ) + 1 : ℤ)) : ℚ) = 0 := by push_cast; ring
    have hidx : (((seg : ℤ) + 1) % (numSegmentsOf pts : ℤ)).toNat * 2
        = (seg * 2 + 2) % pts.length := by
      have hcast2 : ((seg : ℤ) + 1) % (numSegmentsOf pts : ℤ)
          = (((seg + 1) % numSegmentsOf pts : ℕ) : ℤ) := by
        push_cast
        rfl
      rw [hcast2, Int.toNat_natCast, hlen2]
      calc (seg + 1) % numSegmentsOf pts * 2
          = ((seg + 1) * 2) % (numSegmentsOf pts * 2) := (Nat.mul_mod_mul_right 2 _ _).symm
        _ = (seg * 2 + 2) % (2 * numSegmentsOf pts) := by ring_nf
    simp only [getPosition, hfloor, hcast, hidx,
      segDistSqAt, bezDiff, aCoef, bCoef, cCoef, segP0, segP1, segP2,
      sqDist2, dot2, smul2, Prod.fst_add, Prod.snd_add, Prod.fst_sub, Prod.snd_sub]
    ring

/-- C2 (amended): the parameter returned by `getClosestT` achieves the
minimum squared distance among the Newton-REFINED candidates of all
segments and seeds (11 per segment); the bound against the raw, unrefined
seed parameters fails (see the counterexample).  The hypothesis that every
candidate distance stays below `FLT_MAX` mirrors the float range the source
assumes; the point count of a loaded curve is even and positive. -/
theorem getClosestT_le_refined (pts : List Vec2) (q : Vec2)
    (h2 : pts.length % 2 = 0) (hn : 0 < numSegmentsOf pts)
    (hb : ∀ seg ∈ List.range (numSegmentsOf pts), ∀ i ∈ List.range 11,
            (segCandidate pts q seg i).1 < floatMax) :
    ∀ seg ∈ List.range (numSegmentsOf pts), ∀ i ∈ List.range 11,
      sqDist2 (getPosition pts (getClosestT pts q)) q ≤ (segCandidate pts q seg i).1 := by
  have hsegle : ∀ s, ∀ i ∈ List.range 11,
      (segmentScan pts q s).1 ≤ (segCandidate pts q s i).1 :=
    fun s => (scanMinQ_le (segCandidate pts q s) (List.range 11) (floatMax, 0)).2
  have h0seed : (0 : ℕ) ∈ List.range 11 := by simp
  have hsegsc : ∀ s, segmentScan pts q s
      = scanMinQ (segCandidate pts q s) (List.range 11) (floatMax, 0) := fun s => rfl
  have houtle := scanMinQ_le
    (fun seg => ((segmentScan pts q seg).1, (seg : ℚ) + (segmentScan pts q seg).2))
    (List.range (numSegmentsOf pts)) (floatMax, 0)
  have hpair : getClosestTPair pts q
      = scanMinQ (fun seg => ((segmentScan pts q seg).1, (seg : ℚ) + (segmentScan pts q seg).2))
          (List.range (numSegmentsOf pts)) (floatMax, 0) := rfl
  have h0mem : (0 : ℕ) ∈ List.range (numSegmentsOf pts) := by
    simpa using hn
  rcases scanMinQ_attained
      (fun seg => ((segmentScan pts q seg).1, (seg : ℚ) + (segmentScan pts q seg).2))
      (List.range (numSegmentsOf pts)) (floatMax, 0) with hacc | ⟨s0, hs0, heqF⟩
  · exfalso
    have hle := houtle.2 0 h0mem
    rw [hacc] at hle
    have hlt : (segmentScan pts q 0).1 < floatMax :=
      lt_of_le_of_lt (hsegle 0 0 h0seed) (hb 0 h0mem 0 h0seed)
    exact absurd (lt_of_le_of_lt hle hlt) (lt_irrefl _)
  · rcases scanMinQ_attained (segCandidate pts q s0) (List.range 11) (floatMax, 0) with
      hacc2 | ⟨i0, hi0, heqC⟩
    · exfalso
      have hle := (scanMinQ_le (segCandidate pts q s0) (List.range 11) (floatMax, 0)).2 0 h0seed
      rw [hacc2] at hle
      exact absurd (lt_of_le_of_lt hle (hb s0 hs0 0 h0seed)) (lt_irrefl _)
    · have hscan : segmentScan pts q s0 = segCandidate pts q s0 i0 := by
        rw [hsegsc s0, heqC]
      have hi0lt : i0 < 11 := List.mem_range.mp hi0
      have hs0lt : s0 < numSegmentsOf pts := List.mem_range.mp hs0
      have hbounds := refineSeed_bounds (aCoef pts s0) (bCoef pts s0) (cCoef pts q s0) i0 hi0lt
      have ht : getClosestT pts q
          = (s0 : ℚ) + refineSeed (aCoef pts s0) (bCoef pts s0) (cCoef pts q s0) i0 := by
        rw [show getClosestT pts q = (getClosestTPair pts q).2 from rfl, hpair, heqF]
        rw [show ((fun seg => ((segmentScan pts q seg).1,
          (seg : ℚ) + (segmentScan pts q seg).2)) s0).2
            = (s0 : ℚ) + (segmentScan pts q s0).2 from rfl, hscan]
        rfl
      have hdist : sqDist2 (getPosition pts (getClosestT pts q)) q
          = (segCandidate pts q s0 i0).1 := by
        rw [ht, getPosition_seg_local pts q s0 _ h2 hs0lt hbounds.1 hbounds.2]
        rfl
      intro seg hseg i hi
      rw [hdist]
      calc (segCandidate pts q s0 i0).1
          = (getClosestTPair pts q).1 := by rw [hpair, heqF, ← hscan]
        _ ≤ (segmentScan pts q seg).1 := houtle.2 seg hseg
        _ ≤ (segCandidate pts q seg i).1 := hsegle seg i hi

/-- The degenerate two-point curve of the refined-minimum witness. -/
def witnessPts : List Vec2 := [(0, 0), (0, 0)]

/-- The query point of the refined-minimum witness. -/
def witnessQ : Vec2 := (1, 2)

set_option maxRecDepth 400000 in
unseal Rat.add Rat.sub Rat.mul Rat.inv in
/-- Witness for the refined-candidate bound at a concrete curve and query
point, discharging the evenness, non-emptiness and float-range hypotheses. -/
theorem getClosestT_le_refined_witness :
    (witnessPts.length % 2 = 0 ∧ 0 < numSegmentsOf witnessPts
     ∧ ∀ seg ∈ List.range (numSegmentsOf witnessPts), ∀ i ∈ List.range 11,
         (segCandidate witnessPts witnessQ seg i).1 < floatMax)
  ∧ ∀ seg ∈ List.range (numSegmentsOf witnessPts), ∀ i ∈ List.range 11,
      sqDist2 (getPosition witnessPts (getClosestT witnessPts witnessQ)) witnessQ
        ≤ (segCandidate witnessPts witnessQ seg i).1 :=
  ⟨⟨by decide, by decide, by decide⟩,
   getClosestT_le_refined witnessPts witnessQ (by decide) (by decide) (by decide)⟩

set_option maxRecDepth 400000 in
unseal Rat.add Rat.sub Rat.mul Rat.inv in
/-- C2 counterexample: on the loaded 4-point curve `cexPts` with query point
`(-4, -4)`, the parameter returned by `getClosestT` has squared distance
`169/2` to the query point, strictly greater than the squared distance
`145/4` achieved at the seed parameter `t = 0` of segment `0` — the
seed-distance sanity bound fails. -/
theorem getClosestT_seed_bound_cex :
    cexPts.length % 2 = 0 ∧ 0 < numSegmentsOf cexPts
  ∧ seedDistSq cexPts cexQ 0 0
      < sqDist2 (getPosition cexPts (getClosestT cexPts cexQ)) cexQ := by
  exact ⟨by decide, by decide, by decide⟩
